import Mathlib

/-!
Verification of the wealth-distribution simulation (`src/models/world.py`,
`src/models/turtle.py`, `src/models/patch.py`, `src/runner.py`) against its
natural-language specification.

The Python code is shallowly embedded: numbers that Python treats as
`int`/`float` are modelled as `ℤ`/`ℚ` (the program only ever performs exact
field operations: `+`, `-`, `*`, `/`, comparisons), stateful loops become
pure list/Finset computations, and calls into the global RNG become explicit
draw-streams together with the range guarantee of `random.randint`.
-/

namespace WealthSim

/-! ## Gini index (`World.calculate_gini_index`, world.py lines 237-264)

Python wealths are ints and floats mixed by exact arithmetic; we model all
wealths as rationals.  Python's `sorted` is modelled by `List.insertionSort`
(both produce the ascending reordering; for a list of numbers the result is
unique, so the choice of sorting algorithm is irrelevant). -/

/-- `World.calculate_gini_index`, translated line by line:
`if not turtles or len < 2: return 0`; clamp wealths with `max(0, w)` and
sort ascending; `if total == 0: return 0`; accumulate
`(2*(i+1) - n - 1) * wealth_i` over the enumerated sorted list;
`if denominator == 0: return 0`; return `numerator / denominator`. -/
def calculate_gini_index (wealths0 : List ℚ) : ℚ :=
  if wealths0.length < 2 then 0
  else
    let wealths := List.insertionSort (· ≤ ·) (wealths0.map (fun w => max 0 w))
    let n : ℕ := wealths.length
    let total_wealth := wealths.sum
    if total_wealth = 0 then 0
    else
      let numerator :=
        (wealths.enum.map (fun p => (2 * ((p.1 : ℚ) + 1) - n - 1) * p.2)).sum
      let denominator := (n : ℚ) * total_wealth
      if denominator = 0 then 0 else numerator / denominator

/-- Modelled from the spec (§4.7), for comparison with the code's
`calculate_gini_index`: "sort wealths ascending (negative wealths clamped to
0 for this calculation only), `n` = population size, `T` = total (clamped)
wealth.  If `n < 2` or `T = 0`, Gini = 0 by definition.  Otherwise, with
1-indexed rank `r` over the sorted sequence,
`gini = Σ (2r − n − 1)·wealth_r / (n · T)`." -/
def giniReference (wealths0 : List ℚ) : ℚ :=
  let ws := List.insertionSort (· ≤ ·) (wealths0.map (fun w => max 0 w))
  let n : ℕ := ws.length
  let T := ws.sum
  if n < 2 ∨ T = 0 then 0
  else (ws.enum.map (fun p => (2 * ((p.1 : ℚ) + 1) - n - 1) * p.2)).sum
        / ((n : ℚ) * T)

/-- Rank-weighted sum with step-2 coefficients:
`wsum c [w₁, w₂, …] = c·w₁ + (c+2)·w₂ + ⋯`.  The Gini numerator is
`wsum (1 - n)` of the sorted clamped wealths. -/
def wsum (c : ℚ) : List ℚ → ℚ
  | [] => 0
  | w :: t => c * w + wsum (c + 2) t

theorem wsum_nil (c : ℚ) : wsum c [] = 0 := rfl

theorem wsum_cons (c w : ℚ) (t : List ℚ) :
    wsum c (w :: t) = c * w + wsum (c + 2) t := rfl

theorem wsum_shift (l : List ℚ) : ∀ c k : ℚ, wsum (c + k) l = wsum c l + k * l.sum := by
  induction l with
  | nil => intro c k; simp [wsum_nil]
  | cons w t ih =>
    intro c k
    rw [wsum_cons, wsum_cons, List.sum_cons]
    have h : c + k + 2 = (c + 2) + k := by ring
    rw [h, ih (c + 2) k]
    ring

theorem enumFrom_weight_sum (n : ℚ) :
    ∀ (l : List ℚ) (j : ℕ),
      ((List.enumFrom j l).map (fun p => (2 * ((p.1 : ℚ) + 1) - n - 1) * p.2)).sum
        = wsum (2 * ((j : ℚ) + 1) - n - 1) l := by
  intro l
  induction l with
  | nil => intro j; simp [wsum_nil]
  | cons w t ih =>
    intro j
    rw [List.enumFrom_cons, List.map_cons, List.sum_cons, ih (j + 1), wsum_cons]
    have h : 2 * ((((j : ℕ) + 1 : ℕ) : ℚ) + 1) - n - 1
        = (2 * ((j : ℚ) + 1) - n - 1) + 2 := by
      push_cast; ring
    rw [h]

theorem enum_weight_sum (n : ℚ) (l : List ℚ) :
    (l.enum.map (fun p => (2 * ((p.1 : ℚ) + 1) - n - 1) * p.2)).sum
      = wsum (1 - n) l := by
  have h := enumFrom_weight_sum n l 0
  have h0 : 2 * (((0 : ℕ) : ℚ) + 1) - n - 1 = 1 - n := by push_cast; ring
  rw [List.enum, h, h0]

/-- On an ascending list of non-negative rationals, the Gini numerator is
non-negative and at most `(n − 1)` times the total. -/
theorem wsum_bounds :
    ∀ l : List ℚ, l.Sorted (· ≤ ·) → (∀ x ∈ l, 0 ≤ x) →
      0 ≤ wsum (1 - l.length) l ∧
        wsum (1 - l.length) l ≤ ((l.length : ℚ) - 1) * l.sum := by
  intro l
  induction l with
  | nil => intro _ _; simp [wsum_nil]
  | cons w t ih =>
    intro hsort hnn
    rcases List.sorted_cons.mp hsort with ⟨hle, hsortt⟩
    have hw : 0 ≤ w := hnn w (List.mem_cons_self w t)
    have hnnt : ∀ x ∈ t, 0 ≤ x := fun x hx => hnn x (List.mem_cons_of_mem _ hx)
    obtain ⟨ihlo, ihhi⟩ := ih hsortt hnnt
    have hms : (t.length : ℚ) * w ≤ t.sum := by
      have h := List.card_nsmul_le_sum t w hle
      rwa [nsmul_eq_mul] at h
    have hts : (0 : ℚ) ≤ t.sum := List.sum_nonneg hnnt
    have hlen : ((w :: t).length : ℚ) = (t.length : ℚ) + 1 := by
      rw [List.length_cons]; push_cast; ring
    have hexp : wsum (1 - ((w :: t).length : ℚ)) (w :: t)
        = -(t.length : ℚ) * w + (wsum (1 - (t.length : ℚ)) t + 1 * t.sum) := by
      rw [hlen, wsum_cons]
      have h1 : (1 : ℚ) - ((t.length : ℚ) + 1) = -(t.length : ℚ) := by ring
      have h2 : -(t.length : ℚ) + 2 = (1 - (t.length : ℚ)) + 1 := by ring
      rw [h1, h2, wsum_shift]
    have hm : (0 : ℚ) ≤ (t.length : ℚ) := Nat.cast_nonneg _
    constructor
    · rw [hexp]
      linarith [ihlo, hms]
    · rw [hexp, hlen, List.sum_cons]
      nlinarith [ihhi, mul_nonneg hm hw]

theorem clamped_sorted (l : List ℚ) :
    (List.insertionSort (· ≤ ·) (l.map (fun w => max 0 w))).Sorted (· ≤ ·) :=
  List.sorted_insertionSort _ _

theorem clamped_nonneg (l : List ℚ) :
    ∀ x ∈ List.insertionSort (· ≤ ·) (l.map (fun w => max 0 w)), 0 ≤ x := by
  intro x hx
  have hx' : x ∈ l.map (fun w => max 0 w) :=
    (List.perm_insertionSort _ _).mem_iff.mp hx
  rcases List.mem_map.mp hx' with ⟨w, _, rfl⟩
  exact le_max_left 0 w

theorem clamped_length (l : List ℚ) :
    (List.insertionSort (· ≤ ·) (l.map (fun w => max 0 w))).length = l.length := by
  rw [(List.perm_insertionSort _ _).length_eq, List.length_map]

/-- C3: the Gini computation in `World.calculate_gini_index` agrees with the
specification's reference definition on every population of (rational)
wealths; in particular two agents with wealths 0 and 100 yield 1/2. -/
theorem gini_matches_reference :
    (∀ ws : List ℚ, calculate_gini_index ws = giniReference ws) ∧
      calculate_gini_index [0, 100] = 1 / 2 := by
  constructor
  · intro ws
    unfold calculate_gini_index giniReference
    by_cases h2 : ws.length < 2
    · have hlt : (List.insertionSort (· ≤ ·)
          (ws.map (fun w => max 0 w))).length < 2 := by
        rwa [clamped_length]
      rw [if_pos h2, if_pos (Or.inl hlt)]
    · rw [if_neg h2]
      set s := List.insertionSort (· ≤ ·) (ws.map (fun w => max 0 w)) with hs
      by_cases hT : s.sum = 0
      · rw [if_pos hT, if_pos (Or.inr hT)]
      · have hn2 : ¬ s.length < 2 := by rw [clamped_length]; exact h2
        have hden : (s.length : ℚ) * s.sum ≠ 0 := by
          apply mul_ne_zero _ hT
          have : 2 ≤ s.length := Nat.le_of_not_lt hn2
          positivity
        rw [if_neg hT, if_neg hden, if_neg (not_or.mpr ⟨hn2, hT⟩)]
  · norm_num [calculate_gini_index, List.insertionSort, List.orderedInsert,
      List.enum, List.enumFrom]

/-- C4: for every population of agents (any rational wealths, negative ones
included, any population size) the Gini index computed by
`World.calculate_gini_index` lies in the closed interval [0, 1]; hence every
per-tick `gini_index` satisfies `0 ≤ gini_index ≤ 1`. -/
theorem gini_index_in_unit_interval :
    ∀ ws : List ℚ, 0 ≤ calculate_gini_index ws ∧ calculate_gini_index ws ≤ 1 := by
  intro ws
  unfold calculate_gini_index
  by_cases h2 : ws.length < 2
  · simp [h2]
  · simp only [h2, if_false]
    set s := List.insertionSort (· ≤ ·) (ws.map (fun w => max 0 w)) with hs
    by_cases hT : s.sum = 0
    · simp [hT]
    · simp only [hT, if_false]
      have hpos : 0 < s.sum :=
        lt_of_le_of_ne (List.sum_nonneg (clamped_nonneg ws)) (Ne.symm hT)
    -- n ≥ 2 > 0
      have hn2 : 2 ≤ s.length := by
        rw [clamped_length]; exact Nat.le_of_not_lt h2
      have hnpos : (0 : ℚ) < (s.length : ℚ) := by
        have : (0 : ℕ) < s.length := lt_of_lt_of_le (by norm_num) hn2
        exact_mod_cast this
      have hden : (0 : ℚ) < (s.length : ℚ) * s.sum := mul_pos hnpos hpos
      rw [if_neg (ne_of_gt hden)]
      obtain ⟨hlo, hhi⟩ := wsum_bounds s (clamped_sorted ws) (clamped_nonneg ws)
      rw [enum_weight_sum]
      constructor
      · exact div_nonneg hlo (le_of_lt hden)
      · rw [div_le_one hden]
        calc wsum (1 - (s.length : ℚ)) s
            ≤ ((s.length : ℚ) - 1) * s.sum := hhi
          _ ≤ (s.length : ℚ) * s.sum := by nlinarith [hpos]

/-! ## Lorenz curve (`World.calculate_lorenz_list`, world.py lines 267-291)

The Python method sorts the turtles ascending by wealth and sums the wealth
of the prefix of each population bucket; summing a prefix of the turtles
sorted by wealth equals summing a prefix of the sorted wealth list, so the
model works directly on the list of wealths.  `int((i * n) / max_x)` on
non-negative operands is the floor, i.e. natural-number division. -/

/-- The point emitted for bucket `i` (`1 ≤ i ≤ max_x`) of the Lorenz loop:
`turtle_index = int((i * n_turtles) / max_x) - 1`, clamped by
`min(turtle_index, n_turtles - 1)`; the cumulative wealth is the sum of the
first `turtle_index + 1` sorted wealths (`sorted_turtles[:turtle_index + 1]`,
empty when the index is `-1`); the coordinates are
`((i / max_x) * 100, (cumulative_wealth / total_wealth) * 100)`. -/
def lorenzPoint (wealths : List ℚ) (total_wealth : ℚ) (max_x : ℕ) (i : ℕ) :
    ℚ × ℚ :=
  let sorted_wealths := List.insertionSort (· ≤ ·) wealths
  let n_turtles := wealths.length
  let turtle_index : ℤ := ((i * n_turtles / max_x : ℕ) : ℤ) - 1
  let turtle_index := min turtle_index ((n_turtles : ℤ) - 1)
  let cumulative_wealth := (sorted_wealths.take (turtle_index + 1).toNat).sum
  (((i : ℚ) / (max_x : ℚ)) * 100, (cumulative_wealth / total_wealth) * 100)

/-- `World.calculate_lorenz_list`: the degenerate curve
`[(0,0), (100,100)]` when there are no turtles or no positive total wealth,
otherwise `(0,0)` followed by one `lorenzPoint` per `i in range(1, max_x+1)`. -/
def calculate_lorenz_list (wealths : List ℚ) (total_wealth : ℚ)
    (max_x : ℕ) : List (ℚ × ℚ) :=
  if wealths = [] ∨ total_wealth ≤ 0 then [(0, 0), (100, 100)]
  else (0, 0) :: (List.range' 1 max_x).map (lorenzPoint wealths total_wealth max_x)

/-- Componentwise order on curve points: both coordinates non-decreasing. -/
def pointLe (p q : ℚ × ℚ) : Prop := p.1 ≤ q.1 ∧ p.2 ≤ q.2

theorem sum_take_mono (l : List ℚ) (h : ∀ x ∈ l, 0 ≤ x) :
    ∀ {j k : ℕ}, j ≤ k → (l.take j).sum ≤ (l.take k).sum := by
  induction l with
  | nil => intro j k _; simp
  | cons x t ih =>
    intro j k hjk
    cases j with
    | zero =>
      simp only [List.take_zero, List.sum_nil]
      exact List.sum_nonneg fun y hy => h y (List.mem_of_mem_take hy)
    | succ j' =>
      cases k with
      | zero => omega
      | succ k' =>
        simp only [List.take_succ_cons, List.sum_cons]
        have ht : ∀ x ∈ t, 0 ≤ x := fun y hy => h y (List.mem_cons_of_mem _ hy)
        exact add_le_add_left (ih ht (Nat.le_of_succ_le_succ hjk)) x

theorem chain'_range' {R : ℕ → ℕ → Prop} (h : ∀ i, R i (i + 1)) :
    ∀ (n s : ℕ), List.Chain' R (List.range' s n) := by
  intro n
  induction n with
  | zero => intro s; simp
  | succ m ih =>
    intro s
    rw [List.range'_succ]
    cases m with
    | zero => exact List.chain'_singleton s
    | succ m' =>
      rw [List.range'_succ]
      exact List.chain'_cons.mpr ⟨h s, by rw [← List.range'_succ]; exact ih (s + 1)⟩

theorem lorenzPoint_le_succ (wealths : List ℚ) (total : ℚ) (max_x : ℕ)
    (hnn : ∀ x ∈ wealths, 0 ≤ x) (ht : 0 < total) (hx : 0 < max_x) (i : ℕ) :
    pointLe (lorenzPoint wealths total max_x i)
      (lorenzPoint wealths total max_x (i + 1)) := by
  have hsnn : ∀ x ∈ List.insertionSort (· ≤ ·) wealths, 0 ≤ x := fun x hx' =>
    hnn x ((List.perm_insertionSort _ _).mem_iff.mp hx')
  have hxq : (0 : ℚ) < (max_x : ℚ) := by exact_mod_cast hx
  constructor
  · show ((i : ℚ) / (max_x : ℚ)) * 100 ≤ (((i + 1 : ℕ) : ℚ) / (max_x : ℚ)) * 100
    have : ((i : ℚ)) ≤ ((i + 1 : ℕ) : ℚ) := by push_cast; linarith
    gcongr
  · show (_ / total) * 100 ≤ (_ / total) * 100
    have hdiv : i * wealths.length / max_x ≤ (i + 1) * wealths.length / max_x :=
      Nat.div_le_div_right (Nat.mul_le_mul_right _ (Nat.le_succ i))
    have hidx : min (((i * wealths.length / max_x : ℕ) : ℤ) - 1)
          ((wealths.length : ℤ) - 1)
        ≤ min ((((i + 1) * wealths.length / max_x : ℕ) : ℤ) - 1)
          ((wealths.length : ℤ) - 1) := by
      apply min_le_min _ le_rfl
      omega
    have hto : (min (((i * wealths.length / max_x : ℕ) : ℤ) - 1)
          ((wealths.length : ℤ) - 1) + 1).toNat
        ≤ (min ((((i + 1) * wealths.length / max_x : ℕ) : ℤ) - 1)
          ((wealths.length : ℤ) - 1) + 1).toNat :=
      Int.toNat_le_toNat (by omega)
    have hcum := sum_take_mono (List.insertionSort (· ≤ ·) wealths) hsnn hto
    gcongr

/-- C5: for every wealth population that is non-negative (the end-of-tick
state of the agent set — see the tick invariant) with `total_wealth` its
exact sum and any positive resolution `max_x`, the Lorenz curve produced by
`World.calculate_lorenz_list` is non-decreasing in both coordinates, starts
at `(0,0)` and ends at `(100,100)` (the code's percentage scale). -/
theorem lorenz_monotone_and_endpoints (wealths : List ℚ) (total : ℚ) (max_x : ℕ)
    (hnn : ∀ x ∈ wealths, 0 ≤ x) (ht : total = wealths.sum) (hx : 0 < max_x) :
    List.Chain' pointLe (calculate_lorenz_list wealths total max_x) ∧
      (calculate_lorenz_list wealths total max_x).head? = some (0, 0) ∧
      (calculate_lorenz_list wealths total max_x).getLast? = some (100, 100) := by
  unfold calculate_lorenz_list
  by_cases hdeg : wealths = [] ∨ total ≤ 0
  · rw [if_pos hdeg]
    refine ⟨?_, rfl, rfl⟩
    exact List.chain'_cons.mpr ⟨⟨by norm_num, by norm_num⟩, List.chain'_singleton _⟩
  · rw [if_neg hdeg]
    push_neg at hdeg
    obtain ⟨hne, htpos⟩ := hdeg
    have hn1 : 1 ≤ wealths.length := List.length_pos.mpr hne
    -- the last bucket reproduces the whole population
    have hlast : lorenzPoint wealths total max_x max_x = (100, 100) := by
      simp only [lorenzPoint]
      have hdiv : max_x * wealths.length / max_x = wealths.length :=
        Nat.mul_div_cancel_left _ hx
      rw [hdiv]
      have hmin : min ((wealths.length : ℤ) - 1) ((wealths.length : ℤ) - 1)
          = (wealths.length : ℤ) - 1 := min_self _
      rw [hmin]
      have hto : (((wealths.length : ℤ) - 1) + 1).toNat = wealths.length := by
        omega
      rw [hto]
      have hlen : (List.insertionSort (· ≤ ·) wealths).length = wealths.length :=
        (List.perm_insertionSort _ _).length_eq
      rw [← hlen, List.take_length]
      have hsum : (List.insertionSort (· ≤ ·) wealths).sum = wealths.sum :=
        (List.perm_insertionSort _ _).sum_eq
      rw [hsum, ← ht, div_self (ne_of_gt htpos)]
      have hxq : (0 : ℚ) < (max_x : ℚ) := by exact_mod_cast hx
      rw [div_self (ne_of_gt hxq)]
      norm_num
    refine ⟨?_, rfl, ?_⟩
    · apply List.chain'_cons'.mpr
      constructor
      · intro y hy
        rcases max_x with _ | m
        · omega
        · rw [List.range'_succ, List.map_cons] at hy
          simp only [List.head?_cons, Option.mem_def, Option.some.injEq] at hy
          subst hy
          have hsnn : ∀ x ∈ List.insertionSort (· ≤ ·) wealths, 0 ≤ x :=
            fun x hx' => hnn x ((List.perm_insertionSort _ _).mem_iff.mp hx')
          have hcum : (0 : ℚ) ≤ (List.take
              ((min (((1 * wealths.length / (m + 1) : ℕ) : ℤ) - 1)
                ((wealths.length : ℤ) - 1)) + 1).toNat
              (List.insertionSort (· ≤ ·) wealths)).sum :=
            List.sum_nonneg fun y hy => hsnn y (List.mem_of_mem_take hy)
          constructor
          · show (0 : ℚ) ≤ ((1 : ℕ) : ℚ) / ((m + 1 : ℕ) : ℚ) * 100
            positivity
          · show (0 : ℚ) ≤ _ / total * 100
            positivity
      · apply (List.chain'_map _).mpr
        exact chain'_range'
          (fun i => lorenzPoint_le_succ wealths total max_x hnn htpos hx i) max_x 1
    · rcases max_x with _ | m
      · omega
      · rw [List.range'_1_concat, List.map_append, List.map_cons, List.map_nil,
          ← List.cons_append]
        rw [List.getLast?_concat]
        rw [show 1 + m = m + 1 from Nat.add_comm 1 m, hlast]

/-- Witness for `lorenz_monotone_and_endpoints`: the population `[1, 3]`
with total wealth 4 and resolution 4 satisfies the hypotheses, and the
produced curve is monotone with endpoints `(0,0)` and `(100,100)`. -/
theorem lorenz_monotone_and_endpoints_witness :
    (∀ x ∈ [(1 : ℚ), 3], 0 ≤ x) ∧ (4 : ℚ) = [(1 : ℚ), 3].sum ∧ 0 < 4 ∧
      (List.Chain' pointLe (calculate_lorenz_list [(1 : ℚ), 3] 4 4) ∧
        (calculate_lorenz_list [(1 : ℚ), 3] 4 4).head? = some (0, 0) ∧
        (calculate_lorenz_list [(1 : ℚ), 3] 4 4).getLast? = some (100, 100)) :=
  ⟨by norm_num, by norm_num, by norm_num,
    lorenz_monotone_and_endpoints [(1 : ℚ), 3] 4 4 (by norm_num) (by norm_num)
      (by norm_num)⟩

/-! ## Turtles (`src/models/turtle.py`) and the per-tick lifecycle phases of
`World.tick` (`src/models/world.py` lines 353-392)

Coordinates are natural numbers (always inside the grid in the running
program); intermediate look-ahead positions may be negative and are
computed in `ℤ` exactly as Python does. Grain amounts read through
`Patch.get_grain_amount` are `int(...)` of a non-negative quantity, hence
`ℕ`; the grid is modelled as the reading function `(x, y) ↦ grain`. -/

inductive WealthClass where
  | poor
  | middle_class
  | rich
  deriving DecidableEq

@[ext] structure Turtle where
  id : ℕ
  x : ℕ
  y : ℕ
  metabolism : ℕ
  vision : ℕ
  life_expectancy : ℕ
  age : ℕ
  wealth : ℚ
  wealth_class : WealthClass
  deriving DecidableEq

/-- `Turtle.__init__`: age starts at 0, wealth at `initial_wealth`, class
defaults to poor. -/
def Turtle.new (id x y metabolism vision life_expectancy : ℕ)
    (initial_wealth : ℚ) : Turtle :=
  ⟨id, x, y, metabolism, vision, life_expectancy, 0, initial_wealth, .poor⟩

/-- `Turtle.eat`: wealth decreases by metabolism (may go negative). -/
def Turtle.eat (t : Turtle) : Turtle := { t with wealth := t.wealth - t.metabolism }

/-- `Turtle.increment_age`. -/
def Turtle.increment_age (t : Turtle) : Turtle := { t with age := t.age + 1 }

/-- `Turtle.is_dead`: `wealth <= 0 or age >= life_expectancy`. -/
def Turtle.is_dead (t : Turtle) : Bool :=
  decide (t.wealth ≤ 0 ∨ t.life_expectancy ≤ t.age)

/-- The four cardinal directions in the order `Turtle.move` checks them:
North `(0,-1)`, East `(1,0)`, South `(0,1)`, West `(-1,0)`. -/
def moveDirections : List (ℤ × ℤ) := [(0, -1), (1, 0), (0, 1), (-1, 0)]

/-- In-bounds test `0 <= x < width and 0 <= y < height`. -/
def inBounds (width height : ℕ) (p : ℤ × ℤ) : Bool :=
  decide (0 ≤ p.1 ∧ p.1 < (width : ℤ) ∧ 0 ≤ p.2 ∧ p.2 < (height : ℤ))

/-- `Turtle._grain_ahead`: sum the grain at `(x + dx·dist, y + dy·dist)` for
`dist in range(1, vision + 1)`, stopping (`break`) at the first off-grid
position — i.e. the grain over the longest in-bounds prefix of the ray. -/
def Turtle.grain_ahead (width height : ℕ) (grid : ℤ → ℤ → ℕ) (t : Turtle)
    (dx dy : ℤ) : ℕ :=
  ((((List.range' 1 t.vision).map
      (fun (dist : ℕ) => ((t.x : ℤ) + dx * (dist : ℤ),
        (t.y : ℤ) + dy * (dist : ℤ)))).takeWhile
        (inBounds width height)).map (fun p => grid p.1 p.2)).sum

/-- The direction-selection loop of `Turtle.move`: starting from
`best_direction = None, best_total_grain = -1`, replace the best whenever a
direction's grain strictly exceeds it (so earlier directions win ties). -/
def Turtle.bestDirection (width height : ℕ) (grid : ℤ → ℤ → ℕ) (t : Turtle) :
    Option (ℤ × ℤ) × ℤ :=
  moveDirections.foldl
    (fun acc d =>
      let total_grain : ℤ := t.grain_ahead width height grid d.1 d.2
      if total_grain > acc.2 then (some d, total_grain) else acc)
    (none, -1)

/-- `Turtle.move`: one step in the best direction if the target is
in-bounds, otherwise stay. -/
def Turtle.move (width height : ℕ) (grid : ℤ → ℤ → ℕ) (t : Turtle) : Turtle :=
  match (t.bestDirection width height grid).1 with
  | none => t
  | some d =>
    let new_x := (t.x : ℤ) + d.1
    let new_y := (t.y : ℤ) + d.2
    if inBounds width height (new_x, new_y) then
      { t with x := new_x.toNat, y := new_y.toNat }
    else t

/-- Counterexample to C7: in a 3×3 all-zero grid the four directional sums
all tie (and equal the grain at the agent's own position), yet the agent at
`(1,1)` moves North to `(1,0)` instead of staying: since the best-so-far
starts at `-1` and comparisons are strict, North (checked first) wins every
all-tie situation. -/
theorem move_ties_cex :
    (Turtle.move 3 3 (fun _ _ => 0)
        ⟨0, 1, 1, 1, 1, 10, 0, 5, WealthClass.poor⟩).y = 0 ∧
      (Turtle.move 3 3 (fun _ _ => 0)
        ⟨0, 1, 1, 1, 1, 10, 0, 5, WealthClass.poor⟩).x = 1 ∧
      (⟨0, 1, 1, 1, 1, 10, 0, 5, WealthClass.poor⟩ : Turtle).y = 1 := by
  decide

/-- C7 amended: ties are broken by the fixed priority North, East, South,
West, and there is no "stay" candidate: when the four directional sums are
all equal, the agent moves one step North whenever the North target is
on-grid (`1 ≤ y`), and stays put only because the North target is off-grid
(`y = 0`); in particular an agent never moves when the chosen best
direction's step target is off-grid. -/
theorem move_all_tie_goes_north (width height : ℕ) (grid : ℤ → ℤ → ℕ)
    (t : Turtle) (hx : t.x < width) (hy : t.y < height)
    (htieE : t.grain_ahead width height grid 0 (-1)
      = t.grain_ahead width height grid 1 0)
    (htieS : t.grain_ahead width height grid 0 (-1)
      = t.grain_ahead width height grid 0 1)
    (htieW : t.grain_ahead width height grid 0 (-1)
      = t.grain_ahead width height grid (-1) 0) :
    Turtle.move width height grid t
      = if 1 ≤ t.y then { t with y := t.y - 1 } else t := by
  have hbest : (t.bestDirection width height grid).1 = some (0, -1) := by
    unfold Turtle.bestDirection
    rw [moveDirections]
    simp only [List.foldl]
    rw [← htieE, ← htieS, ← htieW]
    have h0 : ((t.grain_ahead width height grid 0 (-1) : ℕ) : ℤ) > -1 := by
      omega
    rw [if_pos h0, if_neg (lt_irrefl _), if_neg (lt_irrefl _), if_neg (lt_irrefl _)]
  unfold Turtle.move
  rw [hbest]
  by_cases hy1 : 1 ≤ t.y
  · have hin : inBounds width height ((t.x : ℤ) + 0, (t.y : ℤ) + (-1)) = true := by
      unfold inBounds
      apply decide_eq_true
      refine ⟨by omega, by omega, by omega, by omega⟩
    simp only [hin, if_pos hy1, if_true]
    ext <;> simp <;> omega
  · have hy0 : t.y = 0 := by omega
    have hout : inBounds width height ((t.x : ℤ) + 0, (t.y : ℤ) + (-1)) = false := by
      unfold inBounds
      apply decide_eq_false
      rw [hy0]
      push_neg
      intro _ _ h
      omega
    simp only [hout, if_neg hy1, Bool.false_eq_true, if_false]

/-- Witness for `move_all_tie_goes_north`: the all-tie agent of the
counterexample satisfies the hypotheses and indeed ends one step North. -/
theorem move_all_tie_goes_north_witness :
    ((⟨0, 1, 1, 1, 1, 10, 0, 5, WealthClass.poor⟩ : Turtle).x < 3 ∧
      (⟨0, 1, 1, 1, 1, 10, 0, 5, WealthClass.poor⟩ : Turtle).y < 3) ∧
    Turtle.move 3 3 (fun _ _ => 0) ⟨0, 1, 1, 1, 1, 10, 0, 5, WealthClass.poor⟩
      = if 1 ≤ (⟨0, 1, 1, 1, 1, 10, 0, 5, WealthClass.poor⟩ : Turtle).y then
          { (⟨0, 1, 1, 1, 1, 10, 0, 5, WealthClass.poor⟩ : Turtle) with
              y := (⟨0, 1, 1, 1, 1, 10, 0, 5, WealthClass.poor⟩ : Turtle).y - 1 }
        else ⟨0, 1, 1, 1, 1, 10, 0, 5, WealthClass.poor⟩ :=
  ⟨⟨by decide, by decide⟩,
    move_all_tie_goes_north 3 3 (fun _ _ => 0) _ (by decide) (by decide)
      (by decide) (by decide) (by decide)⟩

/-! ## World configuration and the death/rebirth phase of `World.tick`

`random.randint(lo, hi)` returns a uniform integer in `[lo, hi]` (raising
`ValueError` when `lo > hi`).  It is modelled by an explicit draw `v`; for
`lo ≤ hi` the result is always in `[lo, hi]` whatever `v` is, which is the
entire contract the program relies on. -/

/-- `random.randint(lo, hi)` driven by the draw `v`. -/
def randint (lo hi : ℕ) (v : ℕ) : ℕ := lo + v % (hi + 1 - lo)

theorem le_randint (lo hi v : ℕ) : lo ≤ randint lo hi v := Nat.le_add_right _ _

theorem randint_le (lo hi v : ℕ) (h : lo ≤ hi) : randint lo hi v ≤ hi := by
  unfold randint
  have : v % (hi + 1 - lo) < hi + 1 - lo := Nat.mod_lt _ (by omega)
  omega

/-- The constructor parameters of `World.__init__` (world.py lines 17-58).
Width, height and population are `ℤ` because Python accepts any integers
there; the drawing bounds are the non-negative naturals the rest of the
code consumes. -/
structure WorldConfig where
  width : ℤ
  height : ℤ
  num_turtles : ℤ
  percent_best_land : ℚ
  max_vision : ℕ
  max_metabolism : ℕ
  min_life_expectancy : ℕ
  max_life_expectancy : ℕ
  uniform_wealth : ℚ
  max_grain : ℚ
  grain_growth_interval : ℕ
  num_grain_grown : ℕ
  inheritance_flag : Bool
  uniform_wealth_flag : Bool
  deriving DecidableEq

/-- `World._init_turtle(i, x, y, inheritance)`: draw metabolism in
`[1, max_metabolism]`, vision in `[1, max_vision]`, life expectancy in
`[min_life_expectancy, max_life_expectancy]`; initial wealth is the uniform
constant when `uniform_wealth_flag` is set, else the inheritance when
positive, else `metabolism + randint(0, 50)`.  `d` supplies this call's
RNG draws. -/
def init_turtle (cfg : WorldConfig) (i x y : ℕ) (inheritance : ℚ)
    (d : ℕ → ℕ) : Turtle :=
  let metabolism := randint 1 cfg.max_metabolism (d 0)
  let vision := randint 1 cfg.max_vision (d 1)
  let life_expectancy :=
    randint cfg.min_life_expectancy cfg.max_life_expectancy (d 2)
  let initial_wealth : ℚ :=
    if cfg.uniform_wealth_flag then cfg.uniform_wealth
    else if 0 < inheritance then inheritance
    else (metabolism : ℚ) + (randint 0 50 (d 3) : ℚ)
  Turtle.new i x y metabolism vision life_expectancy initial_wealth

/-- The inheritance passed to the replacement in `World.tick` phase 4:
`turtle.wealth if inheritance_flag and turtle.wealth > 0 else 0`. -/
def offspring_wealth (cfg : WorldConfig) (t : Turtle) : ℚ :=
  if cfg.inheritance_flag ∧ 0 < t.wealth then t.wealth else 0

/-- The replacements created for the dead turtles, in order; the `k`-th
rebirth consumes the draws `d k`. -/
def rebirth_list (cfg : WorldConfig) (d : ℕ → ℕ → ℕ) :
    ℕ → List Turtle → List Turtle
  | _, [] => []
  | k, t :: ts =>
    init_turtle cfg t.id t.x t.y (offspring_wealth cfg t) (d k)
      :: rebirth_list cfg d (k + 1) ts

/-- Phases 3-4 of `World.tick`: every turtle eats (`wealth -= metabolism`)
and ages (`age += 1`); the dead ones (in list order) are then removed and a
replacement is appended for each.  The Python loop removes each dead object
from the live list and appends its replacement, so the final list is the
survivors in their original order followed by the replacements in
dead-collection order, which is what this definition produces. -/
def death_rebirth_phase (cfg : WorldConfig) (d : ℕ → ℕ → ℕ)
    (turtles : List Turtle) : List Turtle :=
  let updated := turtles.map (fun t => t.eat.increment_age)
  let dead_turtles := updated.filter Turtle.is_dead
  updated.filter (fun t => ! t.is_dead) ++ rebirth_list cfg d 0 dead_turtles

theorem rebirth_list_mem (cfg : WorldConfig) (d : ℕ → ℕ → ℕ) :
    ∀ (l : List Turtle) (k : ℕ) (t : Turtle), t ∈ l →
      ∃ t' ∈ rebirth_list cfg d k l, ∃ j,
        t' = init_turtle cfg t.id t.x t.y (offspring_wealth cfg t) (d j) := by
  intro l
  induction l with
  | nil => intro k t ht; cases ht
  | cons a l ih =>
    intro k t ht
    rcases List.mem_cons.mp ht with rfl | hmem
    · exact ⟨init_turtle cfg t.id t.x t.y (offspring_wealth cfg t) (d k),
        List.mem_cons_self _ _, k, rfl⟩
    · obtain ⟨t', ht', j, hj⟩ := ih (k + 1) t hmem
      exact ⟨t', List.mem_cons_of_mem _ ht', j, hj⟩

theorem mem_rebirth_list (cfg : WorldConfig) (d : ℕ → ℕ → ℕ) :
    ∀ (l : List Turtle) (k : ℕ) (t' : Turtle), t' ∈ rebirth_list cfg d k l →
      ∃ t ∈ l, ∃ j,
        t' = init_turtle cfg t.id t.x t.y (offspring_wealth cfg t) (d j) := by
  intro l
  induction l with
  | nil => intro k t' ht'; cases ht'
  | cons a l ih =>
    intro k t' ht'
    rcases List.mem_cons.mp ht' with rfl | hmem
    · exact ⟨a, List.mem_cons_self _ _, k, rfl⟩
    · obtain ⟨t, ht, j, hj⟩ := ih (k + 1) t' hmem
      exact ⟨t, List.mem_cons_of_mem _ ht, j, hj⟩

theorem init_turtle_fields (cfg : WorldConfig) (i x y : ℕ) (w : ℚ)
    (d : ℕ → ℕ) :
    (init_turtle cfg i x y w d).id = i ∧ (init_turtle cfg i x y w d).x = x ∧
      (init_turtle cfg i x y w d).y = y ∧ (init_turtle cfg i x y w d).age = 0 ∧
      (init_turtle cfg i x y w d).metabolism = randint 1 cfg.max_metabolism (d 0) ∧
      (init_turtle cfg i x y w d).vision = randint 1 cfg.max_vision (d 1) ∧
      (init_turtle cfg i x y w d).life_expectancy
        = randint cfg.min_life_expectancy cfg.max_life_expectancy (d 2) :=
  ⟨rfl, rfl, rfl, rfl, rfl, rfl, rfl⟩

/-- C6: in every tick, every agent whose post-consumption state satisfies
the death predicate is removed and replaced within the same tick by a new
agent with the same id, the same coordinate, age 0 and freshly drawn
attributes inside the configured ranges, while every agent not satisfying
the predicate survives unchanged.  The range hypotheses are exactly the
conditions under which Python's `randint` calls do not raise. -/
theorem tick_death_and_rebirth (cfg : WorldConfig) (d : ℕ → ℕ → ℕ)
    (turtles : List Turtle) (hmet : 1 ≤ cfg.max_metabolism)
    (hvis : 1 ≤ cfg.max_vision)
    (hlife : cfg.min_life_expectancy ≤ cfg.max_life_expectancy) :
    death_rebirth_phase cfg d turtles
        = (turtles.map (fun t => t.eat.increment_age)).filter (fun t => ! t.is_dead)
          ++ rebirth_list cfg d 0
            ((turtles.map (fun t => t.eat.increment_age)).filter Turtle.is_dead) ∧
      (∀ t ∈ turtles.map (fun t => t.eat.increment_age), t.is_dead = false →
        t ∈ death_rebirth_phase cfg d turtles) ∧
      (∀ t ∈ turtles.map (fun t => t.eat.increment_age), t.is_dead = true →
        ∃ t' ∈ death_rebirth_phase cfg d turtles,
          t'.id = t.id ∧ t'.x = t.x ∧ t'.y = t.y ∧ t'.age = 0 ∧
          1 ≤ t'.metabolism ∧ t'.metabolism ≤ cfg.max_metabolism ∧
          1 ≤ t'.vision ∧ t'.vision ≤ cfg.max_vision ∧
          cfg.min_life_expectancy ≤ t'.life_expectancy ∧
          t'.life_expectancy ≤ cfg.max_life_expectancy) := by
  refine ⟨rfl, ?_, ?_⟩
  · intro t ht hdead
    unfold death_rebirth_phase
    apply List.mem_append_left
    exact List.mem_filter.mpr ⟨ht, by rw [hdead]; rfl⟩
  · intro t ht hdead
    have hmem : t ∈ (turtles.map (fun t => t.eat.increment_age)).filter
        Turtle.is_dead := List.mem_filter.mpr ⟨ht, hdead⟩
    obtain ⟨t', ht', j, hj⟩ := rebirth_list_mem cfg d _ 0 t hmem
    refine ⟨t', ?_, ?_⟩
    · unfold death_rebirth_phase
      exact List.mem_append_right _ ht'
    · obtain ⟨h1, h2, h3, h4, h5, h6, h7⟩ :=
        init_turtle_fields cfg t.id t.x t.y (offspring_wealth cfg t) (d j)
    -- the drawn attributes land in the configured ranges
      rw [hj]
      refine ⟨h1, h2, h3, h4, ?_, ?_, ?_, ?_, ?_, ?_⟩
      · rw [h5]; exact le_randint _ _ _
      · rw [h5]; exact randint_le _ _ _ hmet
      · rw [h6]; exact le_randint _ _ _
      · rw [h6]; exact randint_le _ _ _ hvis
      · rw [h7]; exact le_randint _ _ _
      · rw [h7]; exact randint_le _ _ _ hlife

/-- Witness for `tick_death_and_rebirth`: one turtle whose wealth is eaten
down to 0 dies and is replaced (same id 7, same coordinate (2,3), age 0,
attributes in range) under the default drawing bounds. -/
theorem tick_death_and_rebirth_witness :
    (1 ≤ 15 ∧ 1 ≤ 5 ∧ 1 ≤ 83) ∧
      (∀ t ∈ ([⟨7, 2, 3, 5, 2, 10, 0, 5, WealthClass.poor⟩] :
          List Turtle).map (fun t => t.eat.increment_age), t.is_dead = true →
        ∃ t' ∈ death_rebirth_phase
            ⟨51, 51, 250, 10, 5, 15, 1, 83, 50, 50, 1, 4, false, false⟩
            (fun _ _ => 0) [⟨7, 2, 3, 5, 2, 10, 0, 5, WealthClass.poor⟩],
          t'.id = t.id ∧ t'.x = t.x ∧ t'.y = t.y ∧ t'.age = 0 ∧
          1 ≤ t'.metabolism ∧ t'.metabolism ≤ 15 ∧
          1 ≤ t'.vision ∧ t'.vision ≤ 5 ∧
          1 ≤ t'.life_expectancy ∧ t'.life_expectancy ≤ 83) :=
  ⟨⟨by decide, by decide, by decide⟩,
    (tick_death_and_rebirth
      ⟨51, 51, 250, 10, 5, 15, 1, 83, 50, 50, 1, 4, false, false⟩
      (fun _ _ => 0) [⟨7, 2, 3, 5, 2, 10, 0, 5, WealthClass.poor⟩]
      (by decide) (by decide) (by decide)).2.2⟩

/-- Counterexample to C10 as stated: with the (Python-accepted)
configuration `min_life_expectancy = max_life_expectancy = 0` and no
uniform-wealth flag, the turtle that dies this tick is replaced by an agent
whose freshly drawn life expectancy is 0, so at the end of the tick a live
agent has `age = 0 ≥ life_expectancy = 0` — the invariant `age <
life_expectancy` needs `1 ≤ min_life_expectancy`, not just positive
uniform wealth. -/
theorem tick_end_invariant_cex :
    ¬ (∀ t ∈ death_rebirth_phase
        ⟨51, 51, 250, 10, 1, 1, 0, 0, 50, 50, 1, 4, false, false⟩
        (fun _ _ => 0) [⟨0, 0, 0, 1, 1, 5, 0, 1, WealthClass.poor⟩],
      0 < t.wealth ∧ t.age < t.life_expectancy) := by
  intro h
  have hlist : death_rebirth_phase
      ⟨51, 51, 250, 10, 1, 1, 0, 0, 50, 50, 1, 4, false, false⟩
      (fun _ _ => 0) [⟨0, 0, 0, 1, 1, 5, 0, 1, WealthClass.poor⟩]
      = [init_turtle ⟨51, 51, 250, 10, 1, 1, 0, 0, 50, 50, 1, 4, false, false⟩
          0 0 0 0 (fun _ => 0)] := by
    unfold death_rebirth_phase
    norm_num [Turtle.eat, Turtle.increment_age, Turtle.is_dead, List.filter,
      rebirth_list, offspring_wealth]
  have hmem : init_turtle ⟨51, 51, 250, 10, 1, 1, 0, 0, 50, 50, 1, 4, false, false⟩
      0 0 0 0 (fun _ => 0) ∈ death_rebirth_phase
        ⟨51, 51, 250, 10, 1, 1, 0, 0, 50, 50, 1, 4, false, false⟩
        (fun _ _ => 0) [⟨0, 0, 0, 1, 1, 5, 0, 1, WealthClass.poor⟩] := by
    rw [hlist]; exact List.mem_cons_self _ _
  have h2 := (h _ hmem).2
  have hage : (init_turtle ⟨51, 51, 250, 10, 1, 1, 0, 0, 50, 50, 1, 4, false, false⟩
      0 0 0 0 (fun _ => 0)).age = 0 := rfl
  have hle : (init_turtle ⟨51, 51, 250, 10, 1, 1, 0, 0, 50, 50, 1, 4, false, false⟩
      0 0 0 0 (fun _ => 0)).life_expectancy = 0 := rfl
  rw [hage, hle] at h2
  exact absurd h2 (by omega)

/-- C10 amended: provided the configured `uniform_wealth` is positive when
`uniform_wealth_flag` is set, `1 ≤ min_life_expectancy`, and the drawing
ranges are the non-degenerate ones Python accepts
(`min_life_expectancy ≤ max_life_expectancy`, `1 ≤ max_metabolism`), at the
end of every tick every live agent has strictly positive wealth and age
strictly below its life expectancy: survivors by the negation of the death
predicate, replacements because their wealth is the positive uniform
constant, a positive inheritance, or `metabolism + randint(0,50) ≥ 1`, and
their age 0 is below a life expectancy of at least `min_life_expectancy`. -/
theorem tick_end_invariant (cfg : WorldConfig) (d : ℕ → ℕ → ℕ)
    (turtles : List Turtle)
    (huw : cfg.uniform_wealth_flag = true → 0 < cfg.uniform_wealth)
    (hmet : 1 ≤ cfg.max_metabolism)
    (hmin : 1 ≤ cfg.min_life_expectancy)
    (hlife : cfg.min_life_expectancy ≤ cfg.max_life_expectancy) :
    ∀ t ∈ death_rebirth_phase cfg d turtles,
      0 < t.wealth ∧ t.age < t.life_expectancy := by
  intro t ht
  unfold death_rebirth_phase at ht
  rcases List.mem_append.mp ht with hsurv | hreb
  · have halive := (List.mem_filter.mp hsurv).2
    have hdead : t.is_dead = false := by
      cases hd : t.is_dead
      · rfl
      · rw [hd] at halive; exact absurd halive (by decide)
    unfold Turtle.is_dead at hdead
    have hnot : ¬ (t.wealth ≤ 0 ∨ t.life_expectancy ≤ t.age) :=
      of_decide_eq_false hdead
    push_neg at hnot
    exact hnot
  · obtain ⟨t0, _, j, hj⟩ := mem_rebirth_list cfg d _ 0 t hreb
    subst hj
    constructor
    · show 0 < (init_turtle cfg t0.id t0.x t0.y (offspring_wealth cfg t0) (d j)).wealth
      unfold init_turtle Turtle.new
      by_cases hflag : cfg.uniform_wealth_flag
      · simpa [hflag] using huw hflag
      · simp only [hflag, if_false, Bool.false_eq_true]
        by_cases hinh : 0 < offspring_wealth cfg t0
        · simpa [hinh] using hinh
        · rw [if_neg hinh]
          have h1 : 1 ≤ randint 1 cfg.max_metabolism (d j 0) := le_randint _ _ _
          have h1q : (1 : ℚ) ≤ (randint 1 cfg.max_metabolism (d j 0) : ℚ) := by
            exact_mod_cast h1
          have h0q : (0 : ℚ) ≤ (randint 0 50 (d j 3) : ℚ) := by positivity
          linarith
    · show (init_turtle cfg t0.id t0.x t0.y (offspring_wealth cfg t0) (d j)).age
        < (init_turtle cfg t0.id t0.x t0.y (offspring_wealth cfg t0) (d j)).life_expectancy
      unfold init_turtle Turtle.new
      have := le_randint cfg.min_life_expectancy cfg.max_life_expectancy (d j 2)
      simp only []
      omega

/-- Witness for `tick_end_invariant`: under the default configuration every
turtle alive after the death/rebirth phase of the example tick has positive
wealth and age below its life expectancy. -/
theorem tick_end_invariant_witness :
    ((⟨51, 51, 250, 10, 5, 15, 1, 83, 50, 50, 1, 4, false, false⟩ :
        WorldConfig).uniform_wealth_flag = true → 0 < (50 : ℚ)) ∧
      (1 ≤ 15 ∧ 1 ≤ 1 ∧ 1 ≤ 83) ∧
      ∀ t ∈ death_rebirth_phase
          ⟨51, 51, 250, 10, 5, 15, 1, 83, 50, 50, 1, 4, false, false⟩
          (fun _ _ => 0)
          [⟨7, 2, 3, 5, 2, 10, 0, 5, WealthClass.poor⟩,
            ⟨8, 1, 1, 1, 1, 90, 3, 20, WealthClass.rich⟩],
        0 < t.wealth ∧ t.age < t.life_expectancy :=
  ⟨fun _ => by norm_num, ⟨by decide, by decide, by decide⟩,
    tick_end_invariant
      ⟨51, 51, 250, 10, 5, 15, 1, 83, 50, 50, 1, 4, false, false⟩
      (fun _ _ => 0)
      [⟨7, 2, 3, 5, 2, 10, 0, 5, WealthClass.poor⟩,
        ⟨8, 1, 1, 1, 1, 90, 3, 20, WealthClass.rich⟩]
      (fun h => by cases h) (by decide) (by decide) (by decide)⟩

/-! ## Patches (`src/models/patch.py`) and the growth phase of `World.tick`

Grain quantities are rationals: they are set to non-negative integers at
setup but the `Patch` fields themselves hold Python floats during the
diffusion phase, and all operations on them are exact. -/

structure Patch where
  x : ℤ
  y : ℤ
  max_grain : ℚ
  current_grain : ℚ
  deriving DecidableEq

/-- `Patch.__init__`: `current_grain` starts at `max_grain`. -/
def Patch.new (x y : ℤ) (max_grain : ℚ) : Patch := ⟨x, y, max_grain, max_grain⟩

/-- `Patch.grow_grain(growth_amount)`:
`if current < max: current = min(max, current + growth_amount)`. -/
def Patch.grow_grain (p : Patch) (growth_amount : ℕ) : Patch :=
  if p.current_grain < p.max_grain then
    { p with
      current_grain := min p.max_grain (p.current_grain + (growth_amount : ℚ)) }
  else p

/-- Phase 5 of `World.tick`: when `tick_count % grain_growth_interval == 0`
every patch grows by `num_grain_grown` (the interval is a positive integer
in any run that reaches this line — Python raises `ZeroDivisionError` on a
zero interval). -/
def grain_growth_phase (cfg : WorldConfig) (tick_count : ℕ)
    (grid : List (List Patch)) : List (List Patch) :=
  if tick_count % cfg.grain_growth_interval = 0 then
    grid.map (fun row => row.map (fun p => p.grow_grain cfg.num_grain_grown))
  else grid

theorem grow_grain_le (p : Patch) (amount : ℕ)
    (h : p.current_grain ≤ p.max_grain) :
    (p.grow_grain amount).current_grain ≤ (p.grow_grain amount).max_grain := by
  unfold Patch.grow_grain
  by_cases hlt : p.current_grain < p.max_grain
  · rw [if_pos hlt]; exact min_le_left _ _
  · rw [if_neg hlt]; exact h

/-- C9: growing a patch that satisfies `current_grain ≤ max_grain` yields
exactly `min(max_grain, current_grain + amount)` and never exceeds the
capacity; the per-tick growth phase (applied when
`tick_index mod grain_growth_interval == 0`) preserves the capacity
invariant on every patch; and the worked example `max_grain=10,
current_grain=8`, grown by 4, ends at 10. -/
theorem patch_growth_capped (p : Patch) (amount : ℕ)
    (h : p.current_grain ≤ p.max_grain) :
    (p.grow_grain amount).current_grain
        = min p.max_grain (p.current_grain + (amount : ℚ)) ∧
      (p.grow_grain amount).current_grain ≤ p.max_grain ∧
      (∀ (cfg : WorldConfig) (tick_count : ℕ) (grid : List (List Patch)),
        (∀ row ∈ grid, ∀ q ∈ row, q.current_grain ≤ q.max_grain) →
        ∀ row ∈ grain_growth_phase cfg tick_count grid, ∀ q ∈ row,
          q.current_grain ≤ q.max_grain) ∧
      ((Patch.mk 0 0 10 8).grow_grain 4).current_grain = 10 := by
  have hmax : (p.grow_grain amount).max_grain = p.max_grain := by
    unfold Patch.grow_grain
    by_cases hlt : p.current_grain < p.max_grain
    · rw [if_pos hlt]
    · rw [if_neg hlt]
  refine ⟨?_, ?_, ?_, ?_⟩
  · unfold Patch.grow_grain
    by_cases hlt : p.current_grain < p.max_grain
    · rw [if_pos hlt]
    · rw [if_neg hlt]
      have heq : p.current_grain = p.max_grain := le_antisymm h (not_lt.mp hlt)
      rw [heq, min_eq_left (le_add_of_nonneg_right (by positivity))]
  · rw [← hmax]; exact grow_grain_le p amount h
  · intro cfg tick_count grid hinv row hrow q hq
    unfold grain_growth_phase at hrow
    by_cases hm : tick_count % cfg.grain_growth_interval = 0
    · rw [if_pos hm] at hrow
      obtain ⟨row0, hrow0, rfl⟩ := List.mem_map.mp hrow
      obtain ⟨q0, hq0, rfl⟩ := List.mem_map.mp hq
      exact grow_grain_le q0 cfg.num_grain_grown (hinv row0 hrow0 q0 hq0)
    · rw [if_neg hm] at hrow
      exact hinv row hrow q hq
  · norm_num [Patch.grow_grain]

/-- Witness for `patch_growth_capped` at the worked example patch. -/
theorem patch_growth_capped_witness :
    ((Patch.mk 0 0 10 8).current_grain ≤ (Patch.mk 0 0 10 8).max_grain) ∧
      ((Patch.mk 0 0 10 8).grow_grain 4).current_grain
        = min (Patch.mk 0 0 10 8).max_grain
            ((Patch.mk 0 0 10 8).current_grain + ((4 : ℕ) : ℚ)) :=
  ⟨by norm_num, (patch_growth_capped (Patch.mk 0 0 10 8) 4 (by norm_num)).1⟩

/-! ## Grain diffusion (`World._diffuse_grain`, world.py lines 124-163)

The Python pass builds `new_grain` initialized to 0 and, for every source
cell `p` (rows `y in range(height)`, columns `x in range(width)`), adds the
kept share `(1 - rate)·grain(p)` to `new_grain[p]` and
`rate·grain(p) / len(neighbors(p))` to every in-bounds 4-connected
neighbor of `p`.  The final value of `new_grain[q]` is therefore the sum
over all source cells `p` of the contributions `p` makes to `q`, which is
the definition below (addition of the accumulations is commutative; when
`p` has no neighbors the guarded share loop contributes nothing, and no
`q` is a neighbor of `p`, so the second summand is 0 as well). -/

/-- The grid cells `(x, y)` in source-loop order. -/
def cellsList (width height : ℕ) : List (ℤ × ℤ) :=
  (List.range height).flatMap
    (fun (y : ℕ) => (List.range width).map (fun (x : ℕ) => ((x : ℤ), (y : ℤ))))

/-- Neighbor offsets in the order `_diffuse_grain` lists them. -/
def diffusionDirections : List (ℤ × ℤ) := [(0, 1), (0, -1), (1, 0), (-1, 0)]

/-- The in-bounds 4-connected neighbors of `p` (no wraparound). -/
def diffusionNeighbors (width height : ℕ) (p : ℤ × ℤ) : List (ℤ × ℤ) :=
  (diffusionDirections.map (fun d => (p.1 + d.1, p.2 + d.2))).filter
    (inBounds width height)

/-- One diffusion pass: the new grain of cell `q`. -/
def diffuse_grain (width height : ℕ) (g : ℤ × ℤ → ℚ) (diffusion_rate : ℚ) :
    ℤ × ℤ → ℚ :=
  fun q => ((cellsList width height).map (fun p =>
    (if q = p then (1 - diffusion_rate) * g p else 0) +
      (if q ∈ diffusionNeighbors width height p then
        diffusion_rate * g p / ((diffusionNeighbors width height p).length : ℚ)
      else 0))).sum

/-- Total grain over the grid. -/
def total_grain (width height : ℕ) (g : ℤ × ℤ → ℚ) : ℚ :=
  ((cellsList width height).map g).sum

theorem mem_cellsList (width height : ℕ) (p : ℤ × ℤ) :
    p ∈ cellsList width height ↔ inBounds width height p = true := by
  obtain ⟨a, b⟩ := p
  unfold cellsList inBounds
  simp only [List.mem_flatMap, List.mem_map, List.mem_range, decide_eq_true_eq,
    Prod.mk.injEq]
  constructor
  · rintro ⟨y, hy, x, hx, hxa, hyb⟩
    refine ⟨?_, ?_, ?_, ?_⟩ <;> omega
  · rintro ⟨h1, h2, h3, h4⟩
    refine ⟨b.toNat, ?_, a.toNat, ?_, ?_, ?_⟩ <;> omega

theorem cellsList_nodup (width height : ℕ) : (cellsList width height).Nodup := by
  unfold cellsList
  rw [List.nodup_flatMap]
  constructor
  · intro y _
    refine List.Nodup.map ?_ (List.nodup_range _)
    intro a b hab
    have := (Prod.mk.injEq _ _ _ _).mp hab
    exact_mod_cast this.1
  · have hpw : (List.range height).Pairwise (· ≠ ·) :=
      (List.nodup_range height)
    refine hpw.imp ?_
    intro y₁ y₂ hne q hq₁ hq₂
    rcases List.mem_map.mp hq₁ with ⟨x₁, _, rfl⟩
    rcases List.mem_map.mp hq₂ with ⟨x₂, _, h⟩
    have := (Prod.mk.injEq _ _ _ _).mp h
    exact hne (by exact_mod_cast this.2.symm)

theorem diffusionNeighbors_subset (width height : ℕ) (p q : ℤ × ℤ)
    (hq : q ∈ diffusionNeighbors width height p) : q ∈ cellsList width height := by
  unfold diffusionNeighbors at hq
  exact (mem_cellsList width height q).mpr (List.of_mem_filter hq)

theorem diffusionNeighbors_nodup (width height : ℕ) (p : ℤ × ℤ) :
    (diffusionNeighbors width height p).Nodup := by
  unfold diffusionNeighbors
  apply List.Nodup.filter
  refine List.Nodup.map ?_ (by decide)
  intro d₁ d₂ h
  have := (Prod.mk.injEq _ _ _ _).mp h
  obtain ⟨c₁, c₂⟩ := d₁
  obtain ⟨e₁, e₂⟩ := d₂
  simp only [Prod.mk.injEq]
  omega

theorem sum_map_ite_eq_of_nodup (l : List (ℤ × ℤ)) (hl : l.Nodup)
    (a : ℤ × ℤ) (ha : a ∈ l) (c : ℚ) :
    (l.map (fun q => if q = a then c else 0)).sum = c := by
  induction l with
  | nil => cases ha
  | cons b t ih =>
    rw [List.map_cons, List.sum_cons]
    by_cases hba : b = a
    · subst hba
      rw [if_pos rfl]
      have hz : (t.map (fun q => if q = b then c else 0)).sum = 0 := by
        apply List.sum_eq_zero
        intro x hx
        rcases List.mem_map.mp hx with ⟨q, hq, rfl⟩
        rw [if_neg]
        intro hqb
        exact (List.nodup_cons.mp hl).1 (hqb ▸ hq)
      rw [hz, add_zero]
    · rw [if_neg hba, zero_add]
      have hat : a ∈ t := by
        rcases List.mem_cons.mp ha with h | h
        · exact absurd h.symm hba
        · exact h
      exact ih (List.nodup_cons.mp hl).2 hat

theorem sum_map_ite_mem_countP (s l : List (ℤ × ℤ)) (c : ℚ) :
    (l.map (fun q => if q ∈ s then c else 0)).sum
      = c * (l.countP (fun q => decide (q ∈ s)) : ℚ) := by
  induction l with
  | nil => simp
  | cons b t ih =>
    rw [List.map_cons, List.sum_cons, ih, List.countP_cons]
    by_cases hb : b ∈ s
    · simp only [hb, decide_True, if_true]
      push_cast
      ring
    · simp only [hb, decide_False, if_false]
      push_cast
      ring

theorem countP_mem_eq_length (l s : List (ℤ × ℤ)) (hl : l.Nodup) (hs : s.Nodup)
    (hsub : ∀ x ∈ s, x ∈ l) :
    l.countP (fun q => decide (q ∈ s)) = s.length := by
  rw [List.countP_eq_length_filter]
  have hperm : List.Perm (l.filter (fun q => decide (q ∈ s))) s := by
    apply List.perm_of_nodup_nodup_toFinset_eq (hl.filter _) hs
    ext x
    simp only [List.mem_toFinset, List.mem_filter, decide_eq_true_eq]
    exact ⟨fun hx => hx.2, fun hx => ⟨hsub x hx, hx⟩⟩
  exact hperm.length_eq

theorem sum_map_comm (l : List (ℤ × ℤ)) (m : List (ℤ × ℤ))
    (F : ℤ × ℤ → ℤ × ℤ → ℚ) :
    (l.map (fun a => (m.map (fun b => F a b)).sum)).sum
      = (m.map (fun b => (l.map (fun a => F a b)).sum)).sum := by
  induction l with
  | nil => simp
  | cons a t ih =>
    simp only [List.map_cons, List.sum_cons, ih]
    rw [List.sum_map_add]

/-- Counterexample to C2's consequence: one diffusion pass at rate 1/4 on
the 2×2 grid whose cells all hold 1 grain (every cell is a boundary cell
with 2 < 4 neighbors and positive grain) leaves the total grain exactly
unchanged at 4 — the code divides the diffused share by the number of
in-bounds neighbors, so boundary cells give each neighbor a larger share
and no mass is lost at edges. -/
theorem diffusion_no_edge_loss_cex :
    (diffusionNeighbors 2 2 (0, 0)).length < 4 ∧ (fun _ => (1 : ℚ)) ((0 : ℤ), (0 : ℤ)) > 0 ∧
      ¬ (total_grain 2 2 (diffuse_grain 2 2 (fun _ => 1) (1 / 4))
          < total_grain 2 2 (fun _ => 1)) := by
  refine ⟨by decide, by norm_num, ?_⟩
  have h1 : total_grain 2 2 (fun _ => 1) = 4 := by
    norm_num [total_grain, cellsList, List.range_succ]
  have h2 : total_grain 2 2 (diffuse_grain 2 2 (fun _ => 1) (1 / 4)) = 4 := by
    norm_num [total_grain, diffuse_grain, cellsList, diffusionNeighbors,
      diffusionDirections, inBounds, List.range_succ, List.filter,
      Prod.mk.injEq, Prod.ext_iff]
  rw [h1, h2]
  norm_num

/-- C2 amended: in one diffusion pass each cell retains `(1 - r)` of its
grain and divides the whole diffused share `r·grain` evenly among its
in-bounds 4-connected neighbors (per-neighbor share `r·grain/deg(cell)`,
which at a boundary cell is larger than an interior cell's `r·grain/4`),
with no wraparound; consequently, whenever every cell has at least one
in-bounds neighbor (any grid other than a single isolated cell), the total
grain summed over all patches is exactly conserved by the pass — it does
not strictly decrease, even with positive grain on boundary cells. -/
theorem diffusion_conserves_total_grain (width height : ℕ) (g : ℤ × ℤ → ℚ)
    (r : ℚ)
    (hdeg : ∀ p ∈ cellsList width height, diffusionNeighbors width height p ≠ []) :
    total_grain width height (diffuse_grain width height g r)
      = total_grain width height g := by
  unfold total_grain diffuse_grain
  rw [sum_map_comm]
  apply congrArg
  apply List.map_congr_left
  intro p hp
  rw [List.sum_map_add]
  have hA : ((cellsList width height).map
      (fun q => if q = p then (1 - r) * g p else 0)).sum = (1 - r) * g p :=
    sum_map_ite_eq_of_nodup _ (cellsList_nodup width height) p hp _
  have hB : ((cellsList width height).map
      (fun q => if q ∈ diffusionNeighbors width height p then
        r * g p / ((diffusionNeighbors width height p).length : ℚ) else 0)).sum
      = r * g p / ((diffusionNeighbors width height p).length : ℚ)
          * ((diffusionNeighbors width height p).length : ℚ) := by
    rw [sum_map_ite_mem_countP,
      countP_mem_eq_length _ _ (cellsList_nodup width height)
        (diffusionNeighbors_nodup width height p)
        (fun x hx => diffusionNeighbors_subset width height p x hx)]
  have hlen : ((diffusionNeighbors width height p).length : ℚ) ≠ 0 := by
    have := hdeg p hp
    have hpos : 0 < (diffusionNeighbors width height p).length :=
      List.length_pos.mpr this
    exact_mod_cast Nat.pos_iff_ne_zero.mp hpos
  rw [hA, hB, div_mul_cancel₀ _ hlen]
  ring

/-- Witness for `diffusion_conserves_total_grain`: the 2×2 all-ones grid at
rate 1/4 satisfies the degree hypothesis, and total grain is conserved. -/
theorem diffusion_conserves_total_grain_witness :
    (∀ p ∈ cellsList 2 2, diffusionNeighbors 2 2 p ≠ []) ∧
      total_grain 2 2 (diffuse_grain 2 2 (fun _ => 1) (1 / 4))
        = total_grain 2 2 (fun _ => 1) :=
  ⟨by decide, diffusion_conserves_total_grain 2 2 (fun _ => 1) (1 / 4) (by decide)⟩

/-! ## Batch runner (`run_batch_simulations`, runner.py lines 31-85)

Each task `(run_id, num_ticks, world_kwargs)` is handed to
`_run_single_simulation_for_batch`, which runs an isolated `World` for
`num_ticks` ticks and returns the terminal tick record with `run_id` set;
the per-run simulation is abstracted as a function `f` from the run id to
the terminal metrics (runs share no state).  `multiprocessing.Pool.map`
returns results in task-submission order regardless of the order workers
complete them; the completion order is modelled by an explicit schedule
`sched` of task indices, and the pool places every completed result in the
slot of its task index. -/

/-- `_run_single_simulation_for_batch`: the terminal record of the run,
with its `run_id` attached. -/
def batch_worker {M : Type} (f : ℕ → M) (run_id : ℕ) : ℕ × M :=
  (run_id, f run_id)

/-- The task list for run ids `1 .. num_runs` (runner.py lines 44-46). -/
def batch_tasks (num_runs : ℕ) : List ℕ := (List.range num_runs).map (· + 1)

/-- The pool's completion events in completion order: the `i`-th submitted
task finishes at its position in `sched` (indices outside the task list do
not occur; dropping them makes the model total). -/
def pool_completions {M : Type} (f : ℕ → M) (tasks : List ℕ)
    (sched : List ℕ) : List (ℕ × (ℕ × M)) :=
  sched.filterMap (fun i => (tasks[i]?).map (fun t => (i, batch_worker f t)))

/-- `Pool.map`: every completed result sits in the slot of its task index;
the slots are read back in task-submission order. -/
def pool_map {M : Type} (f : ℕ → M) (tasks : List ℕ) (sched : List ℕ) :
    List (ℕ × M) :=
  (List.range tasks.length).filterMap
    (fun i => (pool_completions f tasks sched).lookup i)

/-- `run_batch_simulations`: collect the pool results, then hand them to
the CSV writer sorted ascending by run id
(`sorted(all_run_results, key=lambda x: x['run_id'])`, runner.py line 82). -/
def run_batch_simulations {M : Type} (f : ℕ → M) (num_runs : ℕ)
    (sched : List ℕ) : List (ℕ × M) :=
  List.insertionSort (fun a b => a.1 ≤ b.1)
    (pool_map f (batch_tasks num_runs) sched)

theorem batch_tasks_length (num_runs : ℕ) :
    (batch_tasks num_runs).length = num_runs := by
  unfold batch_tasks
  rw [List.length_map, List.length_range]

theorem lookup_pool_completions {M : Type} (f : ℕ → M) (n : ℕ) :
    ∀ (sched : List ℕ) (i : ℕ), i < n → i ∈ sched →
      (pool_completions f (batch_tasks n) sched).lookup i
        = some (i + 1, f (i + 1)) := by
  intro sched
  induction sched with
  | nil => intro i _ h; cases h
  | cons j rest ih =>
    intro i hi hmem
    unfold pool_completions
    rw [List.filterMap_cons]
    by_cases hj : j < n
    · have hget : (batch_tasks n)[j]? = some (j + 1) := by
        unfold batch_tasks
        rw [List.getElem?_map, List.getElem?_range hj, Option.map_some']
      rw [hget, Option.map_some']
      by_cases hij : i = j
      · subst hij
        rw [List.lookup_cons_self]
        rfl
      · rw [List.lookup_cons]
        have hbeq : (i == j) = false := by
          exact beq_false_of_ne hij
        rw [hbeq]
        exact ih i hi (by rcases List.mem_cons.mp hmem with h | h
                          · exact absurd h hij
                          · exact h)
    · have hget : (batch_tasks n)[j]? = none :=
        List.getElem?_eq_none (by rw [batch_tasks_length]; omega)
      rw [hget, Option.map_none']
      exact ih i hi (by rcases List.mem_cons.mp hmem with h | h
                        · omega
                        · exact h)

theorem filterMap_eq_map_of_forall {α β : Type} (l : List α) (g : α → Option β)
    (h : α → β) (hgh : ∀ a ∈ l, g a = some (h a)) : l.filterMap g = l.map h := by
  induction l with
  | nil => rfl
  | cons a t ih =>
    rw [List.filterMap_cons, hgh a (List.mem_cons_self a t), List.map_cons,
      ih (fun b hb => hgh b (List.mem_cons_of_mem a hb))]

theorem pool_map_eq {M : Type} (f : ℕ → M) (n : ℕ) (sched : List ℕ)
    (hs : ∀ i < n, i ∈ sched) :
    pool_map f (batch_tasks n) sched
      = (List.range n).map (fun i => (i + 1, f (i + 1))) := by
  unfold pool_map
  rw [batch_tasks_length]
  exact filterMap_eq_map_of_forall _ _ _ (fun i hi =>
    lookup_pool_completions f n sched i (List.mem_range.mp hi)
      (hs i (List.mem_range.mp hi)))

/-- C1: for every completion order that eventually finishes every submitted
run, the batch produces exactly `num_runs` terminal records — one per run
id `1 .. num_runs` — and hands them to the CSV writer sorted ascending by
run id; the output is the same list for every schedule, i.e. independent of
completion order. -/
theorem batch_output_sorted_by_run_id {M : Type} (f : ℕ → M) (num_runs : ℕ)
    (sched : List ℕ) (hs : ∀ i < num_runs, i ∈ sched) :
    run_batch_simulations f num_runs sched
        = (List.range num_runs).map (fun i => (i + 1, f (i + 1))) ∧
      (run_batch_simulations f num_runs sched).map Prod.fst
        = (List.range num_runs).map (· + 1) := by
  have hpm := pool_map_eq f num_runs sched hs
  have hsorted : List.Sorted (fun a b : ℕ × M => a.1 ≤ b.1)
      ((List.range num_runs).map (fun i => (i + 1, f (i + 1)))) := by
    rw [List.Sorted, List.pairwise_map]
    exact (List.pairwise_lt_range num_runs).imp (fun h => by omega)
  have hrun : run_batch_simulations f num_runs sched
      = (List.range num_runs).map (fun i => (i + 1, f (i + 1))) := by
    unfold run_batch_simulations
    rw [hpm, hsorted.insertionSort_eq]
  refine ⟨hrun, ?_⟩
  rw [hrun, List.map_map]
  rfl

/-- Witness for `batch_output_sorted_by_run_id`: five runs on a schedule
that finishes run 2 last (the pool has fewer workers than runs) still
produce the records for run ids `[1, 2, 3, 4, 5]` in ascending order. -/
theorem batch_output_sorted_by_run_id_witness :
    (∀ i < 5, i ∈ [0, 2, 3, 4, 1]) ∧
      (run_batch_simulations (fun r => r * 10) 5 [0, 2, 3, 4, 1]
          = (List.range 5).map (fun i => (i + 1, (i + 1) * 10)) ∧
        (run_batch_simulations (fun r => r * 10) 5 [0, 2, 3, 4, 1]).map Prod.fst
          = (List.range 5).map (· + 1)) :=
  ⟨by decide, batch_output_sorted_by_run_id (fun r => r * 10) 5 [0, 2, 3, 4, 1]
    (by decide)⟩

/-! ## World construction (`World.__init__`, world.py lines 17-58, with
`_init_grid`, `_apply_setup_diffusion`, `_init_turtles`)

`World.__init__` performs no validation of its parameters: it stores them
and runs `_init_grid` and `_init_turtles`.  The only ways construction can
fail are Python `ValueError`s raised by `random.sample` (when the requested
best-land count is negative or exceeds the number of patches) and by
`random.randint` (when a drawing range is inverted and a turtle is actually
created); both are modelled by the `Except` error path.  `int(q)` truncates
toward zero; a Python slice `xs[:k]` takes `k` from the front for `k ≥ 0`
and `len(xs) + k` for negative `k`. -/

inductive PyError where
  | valueError
  deriving DecidableEq

/-- Python `int(...)` on an exact real: truncation toward zero. -/
def pyInt (q : ℚ) : ℤ := if 0 ≤ q then ⌊q⌋ else ⌈q⌉

/-- Python slice `xs[:k]` for an arbitrary integer `k`. -/
def pyTake {α : Type} (k : ℤ) (xs : List α) : List α :=
  if 0 ≤ k then xs.take k.toNat else xs.take ((xs.length : ℤ) + k).toNat

/-- `random.randint` with Python's domain check. -/
def randintE (lo hi v : ℕ) : Except PyError ℕ :=
  if lo ≤ hi then .ok (randint lo hi v) else .error .valueError

/-- `WealthClassifier.classify_agent` (wealth_classifier.py lines 25-45). -/
def classify_agent (agent_wealth max_wealth : ℚ) : WealthClass :=
  if max_wealth = 0 then .poor
  else if agent_wealth ≤ max_wealth / 3 then .poor
  else if agent_wealth ≤ max_wealth * 2 / 3 then .middle_class
  else .rich

/-- `World.update_all_wealth_classes`: no-op on an empty population, else
reclassify every turtle against the population maximum wealth. -/
def update_all_wealth_classes (turtles : List Turtle) : List Turtle :=
  match turtles with
  | [] => []
  | t :: ts =>
    let max_wealth := (ts.map Turtle.wealth).foldl max t.wealth
    (t :: ts).map
      (fun u => { u with wealth_class := classify_agent u.wealth max_wealth })

/-- `all_positions = [(x, y) for x in range(width) for y in range(height)]`
(empty when a dimension is `≤ 0`, like Python's `range`). -/
def allPositions (width height : ℤ) : List (ℤ × ℤ) :=
  (List.range width.toNat).flatMap
    (fun (x : ℕ) => (List.range height.toNat).map (fun (y : ℕ) => ((x : ℤ), (y : ℤ))))

/-- The initial grid of `Patch(x, y, max_grain=0)`, rows indexed by `y`. -/
def initZeroGrid (width height : ℤ) : List (List Patch) :=
  (List.range height.toNat).map
    (fun (y : ℕ) => (List.range width.toNat).map
      (fun (x : ℕ) => Patch.new (x : ℤ) (y : ℤ) 0))

/-- Give the sampled best-land patches full capacity and grain.  The
sampled positions are distinct, so setting each listed cell equals mapping
the membership test over the grid. -/
def setBestLand (max_grain : ℚ) (best : List (ℤ × ℤ))
    (grid : List (List Patch)) : List (List Patch) :=
  grid.map (fun row => row.map (fun p =>
    if (p.x, p.y) ∈ best then
      { p with max_grain := max_grain, current_grain := max_grain }
    else p))

/-- Read the grain of the patch at integer coordinates from the row-major
grid (cells carry their own coordinates: `grid[y][x]` is the patch at
`(x, y)`). -/
def gridGrain (grid : List (List Patch)) (q : ℤ × ℤ) : ℚ :=
  ((grid.getD q.2.toNat []).getD q.1.toNat (Patch.new 0 0 0)).current_grain

/-- One `_diffuse_grain` pass on a `Patch` grid: every patch's grain is
replaced by the diffusion value at its own coordinates. -/
def applyDiffusionGrid (width height : ℤ) (rate : ℚ)
    (grid : List (List Patch)) : List (List Patch) :=
  grid.map (fun row => row.map (fun p =>
    { p with current_grain :=
        diffuse_grain width.toNat height.toNat (gridGrain grid) rate (p.x, p.y) }))

/-- Restore every best-land patch (those whose capacity equals the global
maximum) to full grain. -/
def restoreBestLand (max_grain : ℚ) (grid : List (List Patch)) :
    List (List Patch) :=
  grid.map (fun row => row.map (fun p =>
    if p.max_grain = max_grain then { p with current_grain := max_grain } else p))

/-- `int(...)`-round and clamp every patch's grain to `≥ 0`. -/
def clampGrid (grid : List (List Patch)) : List (List Patch) :=
  grid.map (fun row => row.map (fun p =>
    { p with current_grain := max 0 ((pyInt p.current_grain : ℚ)) }))

/-- `_apply_setup_diffusion`: 5 × (restore best land; diffuse at 0.25),
then 10 further diffusion passes, then round-and-clamp. -/
def applySetupDiffusion (cfg : WorldConfig) (grid : List (List Patch)) :
    List (List Patch) :=
  clampGrid
    ((fun g => applyDiffusionGrid cfg.width cfg.height (1 / 4) g)^[10]
      ((fun g => applyDiffusionGrid cfg.width cfg.height (1 / 4)
        (restoreBestLand cfg.max_grain g))^[5] grid))

/-- `num_best_patches = int(total_patches * (percent_best_land / 100.0))`. -/
def numBestLand (cfg : WorldConfig) : ℤ :=
  pyInt (((cfg.width * cfg.height : ℤ) : ℚ) * (cfg.percent_best_land / 100))

/-- `World._init_grid`: count the best-land cells, `random.sample` them
(modelled by an arbitrary reordering `shuffle1` of the position list, with
Python's sample domain check), give them full grain, run the setup
diffusion, and freeze each patch's capacity at its post-diffusion grain. -/
def init_grid (cfg : WorldConfig)
    (shuffle1 : List (ℤ × ℤ) → List (ℤ × ℤ)) :
    Except PyError (List (List Patch)) :=
  let positions := allPositions cfg.width cfg.height
  if 0 ≤ numBestLand cfg ∧ numBestLand cfg ≤ (positions.length : ℤ) then
    let best := (shuffle1 positions).take (numBestLand cfg).toNat
    let grid := applySetupDiffusion cfg
      (setBestLand cfg.max_grain best (initZeroGrid cfg.width cfg.height))
    .ok (grid.map (fun row => row.map
      (fun p => { p with max_grain := p.current_grain })))
  else .error .valueError

/-- `World._init_turtle` with Python's `randint` domain checks. -/
def init_turtleE (cfg : WorldConfig) (i x y : ℕ) (inheritance : ℚ)
    (d : ℕ → ℕ) : Except PyError Turtle := do
  let metabolism ← randintE 1 cfg.max_metabolism (d 0)
  let vision ← randintE 1 cfg.max_vision (d 1)
  let life_expectancy ←
    randintE cfg.min_life_expectancy cfg.max_life_expectancy (d 2)
  if cfg.uniform_wealth_flag then
    .ok (Turtle.new i x y metabolism vision life_expectancy cfg.uniform_wealth)
  else if 0 < inheritance then
    .ok (Turtle.new i x y metabolism vision life_expectancy inheritance)
  else do
    let extra ← randintE 0 50 (d 3)
    .ok (Turtle.new i x y metabolism vision life_expectancy
      ((metabolism : ℚ) + (extra : ℚ)))

/-- The creation loop of `_init_turtles`: turtle `i` at the `i`-th selected
position, inheritance 0. -/
def init_turtles_loop (cfg : WorldConfig) (d : ℕ → ℕ → ℕ) :
    ℕ → List (ℤ × ℤ) → Except PyError (List Turtle)
  | _, [] => .ok []
  | i, pos :: rest => do
    let t ← init_turtleE cfg i pos.1.toNat pos.2.toNat 0 (d i)
    let ts ← init_turtles_loop cfg d (i + 1) rest
    .ok (t :: ts)

/-- `World._init_turtles`: shuffle the positions (`shuffle2`), slice off the
first `num_turtles`, create the turtles, then classify them all. -/
def init_turtles (cfg : WorldConfig)
    (shuffle2 : List (ℤ × ℤ) → List (ℤ × ℤ)) (d : ℕ → ℕ → ℕ) :
    Except PyError (List Turtle) := do
  let selected := pyTake cfg.num_turtles (shuffle2 (allPositions cfg.width cfg.height))
  let turtles ← init_turtles_loop cfg d 0 selected
  .ok (update_all_wealth_classes turtles)

structure World where
  cfg : WorldConfig
  grid : List (List Patch)
  turtles : List Turtle
  current_tick : ℕ

/-- `World.__init__`: store the configuration, build the grid, spawn the
turtles.  No parameter validation of any kind happens. -/
def World.init (cfg : WorldConfig)
    (shuffle1 shuffle2 : List (ℤ × ℤ) → List (ℤ × ℤ))
    (d : ℕ → ℕ → ℕ) : Except PyError World := do
  let grid ← init_grid cfg shuffle1
  let turtles ← init_turtles cfg shuffle2 d
  .ok ⟨cfg, grid, turtles, 0⟩

/-- Whether construction succeeded. -/
def initOk {α : Type} : Except PyError α → Bool
  | .ok _ => true
  | .error _ => false

theorem exceptBind_ok {α β : Type} (a : α) (f : α → Except PyError β) :
    (Except.ok a >>= f) = f a := rfl

/-- Under the drawing-range conditions in which Python's `randint` does not
raise, the fallible turtle constructor agrees with the total one used in
the tick model. -/
theorem init_turtleE_ok (cfg : WorldConfig) (i x y : ℕ) (inheritance : ℚ)
    (d : ℕ → ℕ) (hmet : 1 ≤ cfg.max_metabolism) (hvis : 1 ≤ cfg.max_vision)
    (hlife : cfg.min_life_expectancy ≤ cfg.max_life_expectancy) :
    init_turtleE cfg i x y inheritance d
      = .ok (init_turtle cfg i x y inheritance d) := by
  unfold init_turtleE init_turtle randintE
  rw [if_pos hmet, if_pos hvis, if_pos hlife]
  by_cases hflag : cfg.uniform_wealth_flag
  · simp only [exceptBind_ok, hflag, if_true]
  · by_cases hinh : 0 < inheritance
    · simp only [exceptBind_ok, hflag, hinh, if_false, if_true,
        Bool.false_eq_true]
    · simp only [exceptBind_ok, hflag, hinh, if_false, Bool.false_eq_true]
      rw [if_pos (by omega)]
      rfl

/-- Witness for `init_turtleE_ok` at the default drawing bounds. -/
theorem init_turtleE_ok_witness :
    (1 ≤ 15 ∧ 1 ≤ 5 ∧ 1 ≤ 83) ∧
      init_turtleE ⟨51, 51, 250, 10, 5, 15, 1, 83, 50, 50, 1, 4, false, false⟩
          0 2 3 0 (fun _ => 0)
        = .ok (init_turtle ⟨51, 51, 250, 10, 5, 15, 1, 83, 50, 50, 1, 4, false, false⟩
          0 2 3 0 (fun _ => 0)) :=
  ⟨⟨by decide, by decide, by decide⟩,
    init_turtleE_ok ⟨51, 51, 250, 10, 5, 15, 1, 83, 50, 50, 1, 4, false, false⟩
      0 2 3 0 (fun _ => 0) (by decide) (by decide) (by decide)⟩

/-- Counterexample to C8: `World.__init__` performs no validation, so a
configuration with `width = 0` (all other parameters well-formed defaults)
constructs successfully — there is no `InvalidConfiguration` failure. -/
theorem world_init_no_validation_cex :
    initOk (World.init ⟨0, 3, 250, 10, 5, 15, 1, 83, 50, 50, 1, 4, false, false⟩
        id id (fun _ _ => 0)) = true ∧
      (⟨0, 3, 250, 10, 5, 15, 1, 83, 50, 50, 1, 4, false, false⟩ :
        WorldConfig).width ≤ 0 := by
  constructor
  · have hnb : numBestLand
        ⟨0, 3, 250, 10, 5, 15, 1, 83, 50, 50, 1, 4, false, false⟩ = 0 := by
      norm_num [numBestLand, pyInt]
    have hgrid : init_grid
        ⟨0, 3, 250, 10, 5, 15, 1, 83, 50, 50, 1, 4, false, false⟩ id
        = .ok [[], [], []] := by
      unfold init_grid
      rw [hnb, if_pos (by decide)]
      rfl
    unfold World.init
    rw [hgrid, exceptBind_ok]
    rfl
  · decide

/-- C8 amended: `World.__init__` validates nothing and defines no
`InvalidConfiguration` error.  Construction succeeds even for population
`≤ 0` and for an inverted life-expectancy range as long as no turtle is
actually created; an out-of-range percentage fails only indirectly, as the
Python `ValueError` that `random.sample` raises when the requested
best-land count exceeds the number of patches. -/
theorem world_init_no_validation :
    initOk (World.init ⟨0, 3, -7, 10, 5, 15, 1, 83, 50, 50, 1, 4, false, false⟩
        id id (fun _ _ => 0)) = true ∧
      initOk (World.init ⟨0, 3, 250, 10, 5, 15, 83, 1, 50, 50, 1, 4, false, false⟩
        id id (fun _ _ => 0)) = true ∧
      World.init ⟨1, 1, 1, 250, 5, 15, 1, 83, 50, 50, 1, 4, false, false⟩
        id id (fun _ _ => 0) = .error .valueError := by
  refine ⟨?_, ?_, ?_⟩
  · have hnb : numBestLand
        ⟨0, 3, -7, 10, 5, 15, 1, 83, 50, 50, 1, 4, false, false⟩ = 0 := by
      norm_num [numBestLand, pyInt]
    have hgrid : init_grid
        ⟨0, 3, -7, 10, 5, 15, 1, 83, 50, 50, 1, 4, false, false⟩ id
        = .ok [[], [], []] := by
      unfold init_grid
      rw [hnb, if_pos (by decide)]
      rfl
    unfold World.init
    rw [hgrid, exceptBind_ok]
    rfl
  · have hnb : numBestLand
        ⟨0, 3, 250, 10, 5, 15, 83, 1, 50, 50, 1, 4, false, false⟩ = 0 := by
      norm_num [numBestLand, pyInt]
    have hgrid : init_grid
        ⟨0, 3, 250, 10, 5, 15, 83, 1, 50, 50, 1, 4, false, false⟩ id
        = .ok [[], [], []] := by
      unfold init_grid
      rw [hnb, if_pos (by decide)]
      rfl
    unfold World.init
    rw [hgrid, exceptBind_ok]
    rfl
  · have hnb : numBestLand
        ⟨1, 1, 1, 250, 5, 15, 1, 83, 50, 50, 1, 4, false, false⟩ = 2 := by
      norm_num [numBestLand, pyInt]
    have hgrid : init_grid
        ⟨1, 1, 1, 250, 5, 15, 1, 83, 50, 50, 1, 4, false, false⟩ id
        = .error .valueError := by
      unfold init_grid
      rw [hnb, if_neg (by decide)]
    unfold World.init
    rw [hgrid]
    rfl

end WealthSim
